import Mathlib

/-!
Shallow embedding of `src/hello_world/src/predict.rs`, a batched
character-level next-token prediction script.  Rust `i64` character indices
are modelled as `Int`; `f32`/`f64` logit values as `ℚ` (only order matters
here), with `WithBot ℚ` adding the `-∞` used for masking; panics and
fallible operations as `Option`/`Except`.  The external torch runtime
(`tch`) is not part of this repository: the model forward pass is an
abstract function parameter, and tensors are lists of rows.
-/

namespace Predict

/-- `CONTEXT_LENGTH` (predict.rs line 13); the source stores it as `i64` but
uses it only as a positive count, so we keep it as `Nat`. -/
def CONTEXT_LENGTH : Nat := 32

/-- The vocabulary `HashMap<String, i64>` of predict.rs, modelled as an
association list (first match wins; a JSON object has distinct keys). -/
abbrev Vocab := List (String × Int)

/-- `vocab.get(key)` on the hash map. -/
def vocabGet (vocab : Vocab) (key : String) : Option Int :=
  (vocab.find? (fun p => p.1 == key)).map Prod.snd

/-- Rust `c.to_string()` for a `char`. -/
def charKey (c : Char) : String := String.mk [c]

/-- `*vocab.get(&c.to_string()).unwrap_or(&pad_token)` (predict.rs line 141):
a character missing from the vocabulary encodes as the pad token. -/
def encodeChar (vocab : Vocab) (padToken : Int) (c : Char) : Int :=
  (vocabGet vocab (charKey c)).getD padToken

/-- One row of `embed_strings` (predict.rs lines 136-155): take the last
`CONTEXT_LENGTH` characters (via `.chars().rev().take(..)` then a reverse),
encode them, and left-pad with the pad token up to `CONTEXT_LENGTH`.
The final copy loop writes into a row of a flat buffer prefilled with
`pad_token`; since the padded `indices` always has length exactly
`CONTEXT_LENGTH`, the row equals `indices` itself. -/
def embedRow (vocab : Vocab) (padToken : Int) (s : String) : List Int :=
  let indices : List Int :=
    ((s.data.reverse.take CONTEXT_LENGTH).map (encodeChar vocab padToken)).reverse
  List.replicate (CONTEXT_LENGTH - indices.length) padToken ++ indices

/-- `embed_strings` (predict.rs lines 132-161).  The source produces a flat
`batch * CONTEXT_LENGTH` buffer reshaped to `[batch, CONTEXT_LENGTH]`; we
model the reshaped tensor directly as a list of rows, one per input line. -/
def embed_strings (inputs : List String) (vocab : Vocab) (padToken : Int) :
    List (List Int) :=
  inputs.map (embedRow vocab padToken)

/-- The characters of a line that actually get encoded: its last
`CONTEXT_LENGTH` characters (the whole line when it is shorter). -/
def window (s : String) : List Char :=
  s.data.drop (s.data.length - CONTEXT_LENGTH)

/-- The loop body of `load_vocab` building `index_to_char`
(predict.rs lines 97-100): assign `index_to_char[idx as usize] = c` for each
entry, starting from a table prefilled with `""`.  `idx as usize` on a
negative `i64` wraps to a value `≥ 2^63`, far beyond any table length, so a
negative index also hits the out-of-bounds panic, modelled as `none`. -/
def fillTable : List (String × Int) → List String → Option (List String)
  | [], tbl => some tbl
  | (c, idx) :: rest, tbl =>
    if 0 ≤ idx ∧ idx.toNat < tbl.length then fillTable rest (tbl.set idx.toNat c)
    else none

/-- `index_to_char` as built by `load_vocab` (predict.rs lines 96-100):
`vec!["".to_string(); vocab_map.len()]` then one assignment per entry,
iterating the map. `none` models the index-out-of-bounds panic. -/
def buildIndexToChar (vocabMap : Vocab) : Option (List String) :=
  fillTable vocabMap (List.replicate vocabMap.length "")

/-- How a run of `main` ends when it does not return `Ok`: an `io::Error`
propagated with `?` (or created via `map_err`), or a panic. -/
inductive MainExit where
  | ioError (msg : String)
  | panic (msg : String)
deriving DecidableEq

/-- `load_vocab` (predict.rs lines 85-108).  File-open and JSON-parse
failures (both surfaced as `io::Error`, the parse error via `map_err`) are
the `Except.error` input; on success the parsed map and the derived
`index_to_char` table are returned, with the indexing panic as `MainExit.panic`. -/
def load_vocab (file : Except String Vocab) :
    Except MainExit (Vocab × List String) :=
  match file with
  | .error e => .error (.ioError e)
  | .ok vocabMap =>
    match buildIndexToChar vocabMap with
    | none => .error (.panic "index out of bounds")
    | some indexToChar => .ok (vocabMap, indexToChar)

/-- `vocab.get(" ").expect("No padding token in vocabulary")`
(predict.rs line 271). -/
def getPadToken (vocab : Vocab) : Except MainExit Int :=
  match vocabGet vocab " " with
  | none => .error (.panic "No padding token in vocabulary")
  | some p => .ok p

/-- `load_test_input` (predict.rs lines 111-129).  The input models the
opened file as either an open failure or the list of per-line read results;
`reader.lines().filter_map(Result::ok)` keeps exactly the lines that read
successfully and silently discards the ones that error. -/
def load_test_input (file : Except String (List (Except String String))) :
    Except String (List String) :=
  match file with
  | .error e => .error e
  | .ok lineResults => .ok (lineResults.filterMap Except.toOption)

/-- Rust loops of the shape `for x in l { acc[..] = f(x)?-or-panic }`
collecting one output per element, aborting on the first failure. -/
def mapOrPanic (f : α → Option β) : List α → Option (List β)
  | [] => some []
  | x :: xs =>
    match f x with
    | none => none
    | some y => (mapOrPanic f xs).map (fun ys => y :: ys)

/-- Ranking used to model `Tensor::topk(k, -1, largest=true, sorted=true)`
on one row: higher score first, ties broken by lower class index. -/
def rankLt (p q : Nat × WithBot ℚ) : Prop :=
  q.2 < p.2 ∨ (p.2 = q.2 ∧ p.1 ≤ q.1)

instance : DecidableRel rankLt := fun p q => by
  unfold rankLt; infer_instance

/-- The row's (class index, score) pairs arranged in decreasing score order
(ties by index); the sorted order behind `topkIdx`. -/
def sortedPairs (row : List (WithBot ℚ)) : List (Nat × WithBot ℚ) :=
  List.insertionSort rankLt row.enum

instance : IsTotal (Nat × WithBot ℚ) rankLt where
  total p q := by
    rcases lt_trichotomy p.2 q.2 with h | h | h
    · exact Or.inr (Or.inl h)
    · rcases Nat.le_total p.1 q.1 with h1 | h1
      · exact Or.inl (Or.inr ⟨h, h1⟩)
      · exact Or.inr (Or.inr ⟨h.symm, h1⟩)
    · exact Or.inl (Or.inl h)

instance : IsTrans (Nat × WithBot ℚ) rankLt where
  trans p q r hpq hqr := by
    rcases hpq with h1 | ⟨h1, h1i⟩
    · rcases hqr with h2 | ⟨h2, _⟩
      · exact Or.inl (lt_trans h2 h1)
      · exact Or.inl (h2 ▸ h1)
    · rcases hqr with h2 | ⟨h2, h2i⟩
      · exact Or.inl (h1 ▸ h2)
      · exact Or.inr ⟨h1.trans h2, le_trans h1i h2i⟩

/-- Modelled from the spec: the external `tch` call
`logits_masked.topk(3, -1, true, true)` (predict.rs line 197) is not code of
this repository; per the spec's glossary it selects the `k`
highest-scoring output classes of a row, in decreasing score order.  We
realise it as: sort the (index, score) pairs by decreasing score (ties by
index) and keep the first `k` indices. -/
def topkIdx (row : List (WithBot ℚ)) (k : Nat) : List Nat :=
  ((sortedPairs row).map Prod.fst).take k

/-- `logits_masked.get((.., pad_token)).fill_(-inf)` (predict.rs lines
193-194), per its source comment "Set PAD_TOKEN logits to -inf": one row of
the logits with the pad-token column replaced by `⊥` (`-∞`).  The claims
only concern a pad token that is a valid in-range column index. -/
def maskRow (padToken : Int) (row : List ℚ) : List (WithBot ℚ) :=
  (row.map (fun q : ℚ => (q : WithBot ℚ))).set padToken.toNat ⊥

/-- The per-row decode loop of `run_prediction` (predict.rs lines 204-214):
look up each of the row's 3 top indices in `index_to_char`
(`index_to_char[char_idx]`, panicking when out of bounds, modelled as
`none`) and concatenate the pieces with `push_str`. -/
def decodeTop3 (indexToChar : List String) (row : List (WithBot ℚ)) :
    Option String :=
  (mapOrPanic (fun j => indexToChar[j]?) (topkIdx row 3)).map
    (fun parts => String.join parts)

/-- `run_prediction` (predict.rs lines 164-220) with the loaded model's
forward pass abstracted as `forward`.  The source flattens the `[batch, 3]`
index tensor row-major into `indices_vec` and reads entry
`batch_idx * 3 + i`; with 3 indices per row that is exactly the row-wise
reading modelled here.  The outer loop runs over `0..inputs.len()`, so a
missing logits row or an out-of-range class index is a panic (`none`). -/
def run_prediction (forward : List (List Int) → List (List ℚ))
    (inputs : List String) (vocab : Vocab) (indexToChar : List String)
    (padToken : Int) : Option (List String) :=
  let logits := forward (embed_strings inputs vocab padToken)
  let masked := logits.map (maskRow padToken)
  mapOrPanic (fun b => (masked[b]?).bind (decodeTop3 indexToChar))
    (List.range inputs.length)

/-- `write_predictions` (predict.rs lines 223-244): the sequence of lines
written to the output file, one `writeln!` per prediction, in order. -/
def write_predictions (predictions : List String) : List String :=
  predictions.foldl (fun written p => written ++ [p]) []

/-- `main` (predict.rs lines 246-321), steps 2-6: load vocabulary, extract
the pad token, load the model (used only through `forward`), load the test
input, predict, write.  Modelled from the spec for one step: the source
never unwraps `load_test_input`'s `io::Result` (no `?` at predict.rs line
291, and line 299 passes the `Result` itself to `run_prediction`, which is
not even well-typed); the spec's "propagating open/parse errors" fixes the
evident intent, so a test-input open failure is propagated here. -/
def mainModel (vocabFile : Except String Vocab) (modelFile : Except String Unit)
    (testFile : Except String (List (Except String String)))
    (forward : List (List Int) → List (List ℚ)) :
    Except MainExit (List String) :=
  match load_vocab vocabFile with
  | .error e => .error e
  | .ok (vocab, indexToChar) =>
    match getPadToken vocab with
    | .error e => .error e
    | .ok padToken =>
      match modelFile with
      | .error e => .error (.ioError e)
      | .ok _ =>
        match load_test_input testFile with
        | .error e => .error (.ioError e)
        | .ok inputs =>
          match run_prediction forward inputs vocab indexToChar padToken with
          | none => .error (.panic "index out of bounds")
          | some preds => .ok (write_predictions preds)

/-! ### General list helpers -/

theorem reverse_take_reverse {α : Type*} (l : List α) (k : Nat) :
    (l.reverse.take k).reverse = l.drop (l.length - k) := by
  induction l with
  | nil => simp
  | cons a l ih =>
    by_cases hk : k ≤ l.length
    · have h1 : k - l.reverse.length = 0 := by
        simp only [List.length_reverse]; omega
      rw [List.reverse_cons, List.take_append_eq_append_take, h1]
      simp only [List.take_zero, List.reverse_append, List.reverse_nil,
        List.nil_append]
      rw [ih]
      have h2 : (a :: l).length - k = (l.length - k) + 1 := by
        simp only [List.length_cons]; omega
      rw [h2, List.drop_succ_cons]
    · have h2 : (a :: l).length - k = 0 := by simp only [List.length_cons]; omega
      rw [List.reverse_cons,
        List.take_of_length_le (by simp; omega),
        h2, List.drop_zero, List.reverse_append]
      simp

theorem foldl_append_eq {α : Type*} (l acc : List α) :
    l.foldl (fun w p => w ++ [p]) acc = acc ++ l := by
  induction l generalizing acc with
  | nil => simp
  | cons x xs ih => simp [ih]

theorem mapOrPanic_eq_map {α β : Type*} (f : α → Option β) (g : α → β) :
    ∀ l : List α, (∀ x ∈ l, f x = some (g x)) → mapOrPanic f l = some (l.map g) := by
  intro l
  induction l with
  | nil => intro _; rfl
  | cons x xs ih =>
    intro h
    simp only [mapOrPanic, h x (List.mem_cons_self x xs)]
    rw [ih (fun y hy => h y (List.mem_cons_of_mem _ hy))]
    rfl

theorem write_predictions_eq (predictions : List String) :
    write_predictions predictions = predictions := by
  unfold write_predictions
  rw [foldl_append_eq, List.nil_append]

theorem filterMap_toOption_map_ok {ε α : Type*} (l : List α) :
    (l.map (Except.ok (ε := ε))).filterMap Except.toOption = l := by
  induction l with
  | nil => rfl
  | cons x xs ih => simp [Except.toOption, ih]

/-! ### `load_vocab`'s `index_to_char` table -/

theorem fillTable_length :
    ∀ (es : List (String × Int)) (tbl tbl' : List String),
      fillTable es tbl = some tbl' → tbl'.length = tbl.length := by
  intro es
  induction es with
  | nil =>
    intro tbl tbl' h
    simp only [fillTable] at h
    cases h; rfl
  | cons p rest ih =>
    intro tbl tbl' h
    obtain ⟨c, idx⟩ := p
    simp only [fillTable] at h
    split at h
    · have := ih _ _ h
      simpa using this
    · cases h

theorem fillTable_isSome :
    ∀ (es : List (String × Int)) (tbl : List String),
      (fillTable es tbl).isSome ↔ ∀ p ∈ es, 0 ≤ p.2 ∧ p.2.toNat < tbl.length := by
  intro es
  induction es with
  | nil => intro tbl; simp [fillTable]
  | cons p rest ih =>
    intro tbl
    obtain ⟨c, idx⟩ := p
    simp only [fillTable]
    split
    case isTrue h =>
      rw [ih]
      simp only [List.length_set, List.mem_cons]
      constructor
      · intro hr q hq
        rcases hq with rfl | hq
        · exact h
        · exact hr q hq
      · intro hall q hq
        exact hall q (Or.inr hq)
    case isFalse h =>
      constructor
      · intro h'; simp at h'
      · intro hall
        exact absurd (by simpa using hall (c, idx) (List.mem_cons_self _ _)) h

theorem fillTable_getElem?_of_ne :
    ∀ (es : List (String × Int)) (tbl tbl' : List String) (k : Nat),
      fillTable es tbl = some tbl' → (∀ p ∈ es, p.2.toNat ≠ k) →
      tbl'[k]? = tbl[k]? := by
  intro es
  induction es with
  | nil =>
    intro tbl tbl' k h _
    simp only [fillTable] at h
    cases h; rfl
  | cons p rest ih =>
    intro tbl tbl' k h hne
    obtain ⟨c, idx⟩ := p
    simp only [fillTable] at h
    split at h
    · rw [ih _ _ _ h (fun q hq => hne q (List.mem_cons_of_mem _ hq))]
      exact List.getElem?_set_ne (hne (c, idx) (List.mem_cons_self _ _))
    · cases h

theorem fillTable_lookup :
    ∀ (es : List (String × Int)) (tbl tbl' : List String) (c : String) (i : Int),
      (es.map Prod.snd).Nodup → fillTable es tbl = some tbl' → (c, i) ∈ es →
      tbl'[i.toNat]? = some c := by
  intro es
  induction es with
  | nil => intro _ _ _ _ _ _ hmem; cases hmem
  | cons p rest ih =>
    intro tbl tbl' c i hnd h hmem
    obtain ⟨c', i'⟩ := p
    simp only [fillTable] at h
    split at h
    case isTrue hcond =>
      rcases List.mem_cons.mp hmem with heq | hmem'
      · cases heq
        have hrest : ∀ q ∈ rest, 0 ≤ q.2 ∧ q.2.toNat < (tbl.set i.toNat c).length :=
          (fillTable_isSome rest _).mp (by simp [h])
        have hne : ∀ q ∈ rest, q.2.toNat ≠ i.toNat := by
          intro q hq habs
          have hqi : q.2 ≠ i := by
            intro h2
            have hmem2 : q.2 ∈ rest.map Prod.snd := List.mem_map_of_mem Prod.snd hq
            rw [h2] at hmem2
            exact (List.nodup_cons.mp hnd).1 hmem2
          have h1 := (hrest q hq).1
          have h2 := hcond.1
          omega
        rw [fillTable_getElem?_of_ne rest _ _ _ h hne]
        exact List.getElem?_set_self hcond.2
      · exact ih _ _ _ _ (List.nodup_cons.mp hnd).2 h hmem'
    case isFalse => cases h

/-- Claim C9: the `index_to_char[idx as usize] = c` loop in `load_vocab`
indexes in bounds (so does not panic) exactly when every index of the parsed
vocabulary map lies between `0` and `number of entries - 1`; under that
precondition the out-of-bounds branch is unreachable. -/
theorem load_vocab_indexing_inbounds_iff (vocabMap : Vocab) :
    (buildIndexToChar vocabMap).isSome ↔
      ∀ p ∈ vocabMap, 0 ≤ p.2 ∧ p.2 < (vocabMap.length : Int) := by
  unfold buildIndexToChar
  rw [fillTable_isSome]
  constructor
  · intro h p hp
    have := h p hp
    simp only [List.length_replicate] at this
    omega
  · intro h p hp
    have := h p hp
    simp only [List.length_replicate]
    omega

/-- Claim C5 is false as stated: when two vocabulary entries share an index,
the later write overwrites the earlier one, so the round trip fails for the
earlier entry.  Concretely for the map `{"a": 0, "b": 0}` the table is
`["b", ""]` and entry `("a", 0)` decodes to `"b"`, not `"a"`. -/
theorem load_vocab_roundtrip_counterexample :
    buildIndexToChar [("a", 0), ("b", 0)] = some ["b", ""] ∧
    ("a", (0 : Int)) ∈ [("a", (0 : Int)), ("b", 0)] ∧
    ¬ ((["b", ""] : List String)[(0 : Int).toNat]? = some "a") := by
  refine ⟨by decide, by decide, by decide⟩

/-- Claim C5 (amended): provided the indices of the vocabulary map are
pairwise distinct, every entry `(c, i)` of the map satisfies
`index_to_char[i] = c` in the table built by `load_vocab`. -/
theorem load_vocab_roundtrip (vocabMap : Vocab) (indexToChar : List String)
    (hinj : (vocabMap.map Prod.snd).Nodup)
    (htbl : buildIndexToChar vocabMap = some indexToChar)
    (c : String) (i : Int) (hmem : (c, i) ∈ vocabMap) :
    indexToChar[i.toNat]? = some c :=
  fillTable_lookup vocabMap _ _ c i hinj htbl hmem

theorem load_vocab_roundtrip_witness :
    (["a", "b"] : List String)[(1 : Int).toNat]? = some "b" :=
  load_vocab_roundtrip [("a", 0), ("b", 1)] ["a", "b"] (by decide) (by decide)
    "b" 1 (by decide)

/-- Claim C10: if the loaded vocabulary has no entry for `" "`, `main`
panics with message "No padding token in vocabulary" (a panic, not a
returned `io::Error`); when `" "` is present the panic branch is
unreachable and the pad token is its index. -/
theorem pad_token_panic (vocab : Vocab) :
    (vocabGet vocab " " = none →
      getPadToken vocab = .error (.panic "No padding token in vocabulary")) ∧
    (∀ p : Int, vocabGet vocab " " = some p → getPadToken vocab = .ok p) := by
  constructor
  · intro h; simp [getPadToken, h]
  · intro p h; simp [getPadToken, h]

theorem pad_token_panic_witness :
    getPadToken [] = .error (.panic "No padding token in vocabulary") ∧
    getPadToken [(" ", 5)] = .ok 5 :=
  ⟨(pad_token_panic []).1 rfl, (pad_token_panic [(" ", 5)]).2 5 rfl⟩

/-- Claim C7 is false as stated: an input line that fails to read is
silently dropped by `load_test_input` (`filter_map(Result::ok)`), not
propagated and not kept — here a 3-line file yields 2 lines and no error. -/
theorem line_error_dropped_counterexample :
    load_test_input (.ok [.ok "a", .error "read error", .ok "b"]) =
      .ok ["a", "b"] ∧
    (["a", "b"] : List String).length ≠ 3 := by
  exact ⟨rfl, by decide⟩

/-- Claim C7 (amended): failures opening or parsing the vocabulary file and
failures loading the model are propagated out of `main` as errors (so no
predictions are written); a failure to open the test input file is returned
as an error by `load_test_input`; but individual input lines that fail to
read are silently dropped by `load_test_input` rather than propagated. -/
theorem error_propagation (e : String) (vocabMap : Vocab)
    (indexToChar : List String) (padToken : Int)
    (htbl : buildIndexToChar vocabMap = some indexToChar)
    (hpad : vocabGet vocabMap " " = some padToken)
    (testFile : Except String (List (Except String String)))
    (forward : List (List Int) → List (List ℚ)) :
    (∀ mf tf fwd, mainModel (.error e) mf tf fwd = .error (.ioError e)) ∧
    (mainModel (.ok vocabMap) (.error e) testFile forward =
      .error (.ioError e)) ∧
    (load_test_input (.error e) = .error e) ∧
    (∀ lineResults, load_test_input (.ok lineResults) =
      .ok (lineResults.filterMap Except.toOption)) := by
  refine ⟨?_, ?_, rfl, fun _ => rfl⟩
  · intro mf tf fwd
    simp [mainModel, load_vocab]
  · simp [mainModel, load_vocab, htbl, getPadToken, hpad]

theorem error_propagation_witness :
    (mainModel (.error "boom") (.ok ()) (.ok []) (fun _ => []) =
      .error (.ioError "boom")) ∧
    (mainModel (.ok [(" ", 0)]) (.error "boom") (.ok []) (fun _ => []) =
      .error (.ioError "boom")) ∧
    (load_test_input (.error "boom") = .error "boom") ∧
    (load_test_input (.ok [.ok "x"]) =
      .ok (([.ok "x"] : List (Except String String)).filterMap Except.toOption)) := by
  obtain ⟨h1, h2, h3, h4⟩ :=
    error_propagation "boom" [(" ", 0)] [" "] 0 (by decide) (by decide)
      (.ok []) (fun _ => [])
  exact ⟨h1 (.ok ()) (.ok []) (fun _ => []), h2, h3, h4 [.ok "x"]⟩

/-! ### `embed_strings` -/

theorem window_length (s : String) :
    (window s).length = min CONTEXT_LENGTH s.data.length := by
  simp only [window, List.length_drop]
  omega

theorem embedRow_eq (vocab : Vocab) (padToken : Int) (s : String) :
    embedRow vocab padToken s =
      List.replicate (CONTEXT_LENGTH - (window s).length) padToken ++
        (window s).map (encodeChar vocab padToken) := by
  unfold embedRow window
  rw [← List.map_reverse, reverse_take_reverse]
  simp [List.length_map]

theorem embedRow_length (vocab : Vocab) (padToken : Int) (s : String) :
    (embedRow vocab padToken s).length = CONTEXT_LENGTH := by
  rw [embedRow_eq]
  have hw := window_length s
  simp only [List.length_append, List.length_replicate, List.length_map]
  omega

/-- Claim C2: `embed_strings` yields exactly one row per input line, each
row holding exactly `CONTEXT_LENGTH = 32` character indices, and for a line
of at least 32 characters the row is the encoding of exactly its last 32
characters, in order. -/
theorem embed_strings_shape (inputs : List String) (vocab : Vocab)
    (padToken : Int) :
    (embed_strings inputs vocab padToken).length = inputs.length ∧
    (∀ row ∈ embed_strings inputs vocab padToken,
      row.length = CONTEXT_LENGTH) ∧
    (∀ (i : Nat) (s : String), inputs[i]? = some s →
      CONTEXT_LENGTH ≤ s.data.length →
      (embed_strings inputs vocab padToken)[i]? =
        some ((s.data.drop (s.data.length - CONTEXT_LENGTH)).map
          (encodeChar vocab padToken))) := by
  refine ⟨by simp [embed_strings], ?_, ?_⟩
  · intro row hrow
    simp only [embed_strings, List.mem_map] at hrow
    obtain ⟨s, _, rfl⟩ := hrow
    exact embedRow_length vocab padToken s
  · intro i s hi hlen
    have hw : (window s).length = CONTEXT_LENGTH := by
      rw [window_length]; omega
    simp only [embed_strings, List.getElem?_map, hi, Option.map_some']
    rw [embedRow_eq, hw]
    simp [window]

theorem embed_strings_shape_witness :
    (CONTEXT_LENGTH ≤ ("abcdefghijklmnopqrstuvwxyz0123456789" : String).data.length) ∧
    (embed_strings ["abcdefghijklmnopqrstuvwxyz0123456789"] [] 7)[0]? =
      some ((("abcdefghijklmnopqrstuvwxyz0123456789" : String).data.drop
        (("abcdefghijklmnopqrstuvwxyz0123456789" : String).data.length -
          CONTEXT_LENGTH)).map (encodeChar [] 7)) :=
  ⟨by decide,
    (embed_strings_shape ["abcdefghijklmnopqrstuvwxyz0123456789"] [] 7).2.2 0
      "abcdefghijklmnopqrstuvwxyz0123456789" rfl (by decide)⟩

/-- Claim C4: the pad token is the vocabulary's index for `" "` (extracted
by `main`), and a line with `n < CONTEXT_LENGTH` characters is encoded with
`CONTEXT_LENGTH - n` leading pad tokens followed by the encodings of its
characters in order (left padding). -/
theorem embed_left_pad (vocab : Vocab) (padToken : Int) (s : String)
    (hpad : vocabGet vocab " " = some padToken)
    (hs : s.data.length < CONTEXT_LENGTH) :
    getPadToken vocab = .ok padToken ∧
    embedRow vocab padToken s =
      List.replicate (CONTEXT_LENGTH - s.data.length) padToken ++
        s.data.map (encodeChar vocab padToken) := by
  refine ⟨by simp [getPadToken, hpad], ?_⟩
  have hw : window s = s.data := by
    unfold window
    have h0 : s.data.length - CONTEXT_LENGTH = 0 := by omega
    rw [h0, List.drop_zero]
  rw [embedRow_eq, hw]

theorem embed_left_pad_witness :
    getPadToken [(" ", 0), ("a", 1)] = .ok 0 ∧
    embedRow [(" ", 0), ("a", 1)] 0 "a" =
      List.replicate (CONTEXT_LENGTH - ("a" : String).data.length) 0 ++
        ("a" : String).data.map (encodeChar [(" ", 0), ("a", 1)] 0) :=
  embed_left_pad [(" ", 0), ("a", 1)] 0 "a" (by decide) (by decide)

/-- Claim C8: a character of the encoded window that is not a key of the
vocabulary map is encoded as the pad token (rather than causing an error):
the corresponding entry of the line's row equals `padToken`. -/
theorem embed_unknown_char_pad (vocab : Vocab) (padToken : Int) (s : String)
    (j : Nat) (hj : j < (window s).length)
    (hunk : vocabGet vocab (charKey ((window s).get ⟨j, hj⟩)) = none) :
    (embedRow vocab padToken s)[CONTEXT_LENGTH - (window s).length + j]? =
      some padToken := by
  have hwlen : (window s).length ≤ CONTEXT_LENGTH := by
    rw [window_length]; omega
  rw [embedRow_eq]
  rw [List.getElem?_append_right (by simp only [List.length_replicate]; omega)]
  simp only [List.length_replicate]
  have hidx : CONTEXT_LENGTH - (window s).length + j -
      (CONTEXT_LENGTH - (window s).length) = j := by omega
  rw [hidx, List.getElem?_map, List.getElem?_eq_getElem hj]
  simp only [Option.map_some', Option.some.injEq]
  rw [List.get_eq_getElem] at hunk
  simp [encodeChar, hunk]

theorem embed_unknown_char_pad_witness :
    (embedRow [] 7 "a")[CONTEXT_LENGTH - (window "a").length + 0]? = some 7 :=
  embed_unknown_char_pad [] 7 "a" 0 (by decide) (by decide)

/-! ### `topk` and pad masking -/

theorem sortedPairs_perm (row : List (WithBot ℚ)) :
    List.Perm (sortedPairs row) row.enum :=
  List.perm_insertionSort rankLt row.enum

theorem sortedPairs_sorted (row : List (WithBot ℚ)) :
    List.Sorted rankLt (sortedPairs row) :=
  List.sorted_insertionSort rankLt row.enum

theorem sortedPairs_length (row : List (WithBot ℚ)) :
    (sortedPairs row).length = row.length := by
  rw [(sortedPairs_perm row).length_eq, List.enum_length]

theorem sortedPairs_mem_val {row : List (WithBot ℚ)} {p : Nat × WithBot ℚ}
    (hp : p ∈ sortedPairs row) : row[p.1]? = some p.2 :=
  List.mem_enum_iff_getElem?.mp ((sortedPairs_perm row).mem_iff.mp hp)

theorem sortedPairs_getElem_val (row : List (WithBot ℚ)) (t : Nat)
    (ht : t < (sortedPairs row).length) :
    row[(sortedPairs row)[t].1]? = some ((sortedPairs row)[t].2) :=
  sortedPairs_mem_val (List.getElem_mem ht)

theorem sortedPairs_fst_nodup (row : List (WithBot ℚ)) :
    ((sortedPairs row).map Prod.fst).Nodup := by
  have h1 : List.Perm ((sortedPairs row).map Prod.fst) (row.enum.map Prod.fst) :=
    (sortedPairs_perm row).map Prod.fst
  have h2 : (row.enum.map Prod.fst).Nodup := by
    rw [List.enum_map_fst]; exact List.nodup_range _
  exact h1.nodup_iff.mpr h2

theorem sortedPairs_rel (row : List (WithBot ℚ)) {a b : Nat} (hab : a < b)
    (hb : b < (sortedPairs row).length) :
    rankLt (sortedPairs row)[a] (sortedPairs row)[b] := by
  have h := (sortedPairs_sorted row).rel_get_of_lt
    (a := ⟨a, lt_trans hab hb⟩) (b := ⟨b, hb⟩) hab
  simpa using h

theorem rankLt_snd_le {p q : Nat × WithBot ℚ} (h : rankLt p q) : q.2 ≤ p.2 := by
  rcases h with h | ⟨h, _⟩
  · exact le_of_lt h
  · exact le_of_eq h.symm

theorem getD_of_getElem? {α : Type*} {l : List α} {i : Nat} {v d : α}
    (h : l[i]? = some v) : l.getD i d = v := by
  simp [List.getD_eq_getElem?_getD, h]

theorem topkIdx_length (row : List (WithBot ℚ)) (k : Nat) :
    (topkIdx row k).length = min k row.length := by
  simp [topkIdx, sortedPairs_length]

theorem topkIdx_getElem (row : List (WithBot ℚ)) (k t : Nat)
    (ht : t < (topkIdx row k).length)
    (hts : t < (sortedPairs row).length) :
    (topkIdx row k)[t] = (sortedPairs row)[t].1 := by
  simp [topkIdx]

theorem topkIdx_lt (row : List (WithBot ℚ)) (k : Nat) :
    ∀ j ∈ topkIdx row k, j < row.length := by
  intro j hj
  have h1 : j ∈ (sortedPairs row).map Prod.fst := List.mem_of_mem_take hj
  have h2 : j ∈ row.enum.map Prod.fst :=
    ((sortedPairs_perm row).map Prod.fst).mem_iff.mp h1
  rw [List.enum_map_fst] at h2
  exact List.mem_range.mp h2

theorem topkIdx_nodup (row : List (WithBot ℚ)) (k : Nat) :
    (topkIdx row k).Nodup :=
  (sortedPairs_fst_nodup row).sublist (List.take_sublist k _)

/-- Claim C6: the 3 class indices extracted per row are the indices of the 3
highest scores of that row, in order of decreasing score: they are 3
distinct in-range indices, the scores read along them are non-increasing,
and the score at any index not selected is at most the score at every
selected index. -/
theorem topk_correct (row : List (WithBot ℚ)) (h3 : 3 ≤ row.length) :
    (topkIdx row 3).length = 3 ∧
    (topkIdx row 3).Nodup ∧
    (∀ j ∈ topkIdx row 3, j < row.length) ∧
    (topkIdx row 3).Pairwise (fun j j' => row.getD j' ⊥ ≤ row.getD j ⊥) ∧
    (∀ j < row.length, j ∉ topkIdx row 3 →
      ∀ i ∈ topkIdx row 3, row.getD j ⊥ ≤ row.getD i ⊥) := by
  have hlen : (topkIdx row 3).length = 3 := by
    rw [topkIdx_length]; omega
  have hS : (sortedPairs row).length = row.length := sortedPairs_length row
  refine ⟨hlen, topkIdx_nodup row 3, topkIdx_lt row 3, ?_, ?_⟩
  · have h1 : (sortedPairs row).Pairwise
        (fun p q => row.getD q.1 ⊥ ≤ row.getD p.1 ⊥) := by
      refine (List.Pairwise.imp_of_mem ?_) (sortedPairs_sorted row)
      intro p q hp hq hpq
      rw [getD_of_getElem? (sortedPairs_mem_val hp),
        getD_of_getElem? (sortedPairs_mem_val hq)]
      exact rankLt_snd_le hpq
    have h2 : ((sortedPairs row).map Prod.fst).Pairwise
        (fun j j' => row.getD j' ⊥ ≤ row.getD j ⊥) := by
      rw [List.pairwise_map]
      exact h1
    exact h2.sublist (List.take_sublist 3 _)
  · intro j hjlen hjnot i hi
    obtain ⟨t, ht, hti⟩ := List.mem_iff_getElem.mp hi
    have ht3 : t < 3 := hlen ▸ ht
    have htS : t < (sortedPairs row).length := by omega
    have hrowj : row[j]? = some row[j] := List.getElem?_eq_getElem hjlen
    have hjmem : ((j, row[j]) : Nat × WithBot ℚ) ∈ sortedPairs row :=
      (sortedPairs_perm row).mem_iff.mpr (List.mem_enum_iff_getElem?.mpr hrowj)
    obtain ⟨u, hu, huv⟩ := List.mem_iff_getElem.mp hjmem
    have hu3 : 3 ≤ u := by
      by_contra hu3
      push_neg at hu3
      have hut : u < (topkIdx row 3).length := by omega
      have : (topkIdx row 3)[u] = j := by
        rw [topkIdx_getElem row 3 u hut hu, huv]
      exact hjnot (this ▸ List.getElem_mem hut)
    have hrel : rankLt (sortedPairs row)[t] (sortedPairs row)[u] :=
      sortedPairs_rel row (by omega) hu
    have hle := rankLt_snd_le hrel
    rw [huv] at hle
    have hval : row[(sortedPairs row)[t].1]? = some ((sortedPairs row)[t].2) :=
      sortedPairs_getElem_val row t htS
    rw [← topkIdx_getElem row 3 t ht htS, hti] at hval
    rw [getD_of_getElem? hrowj, getD_of_getElem? hval]
    exact hle

theorem topk_correct_witness :
    ((topkIdx [((5 : ℚ) : WithBot ℚ), ((7 : ℚ) : WithBot ℚ),
        ((3 : ℚ) : WithBot ℚ), ((9 : ℚ) : WithBot ℚ)] 3).length = 3) ∧
    ((topkIdx [((5 : ℚ) : WithBot ℚ), ((7 : ℚ) : WithBot ℚ),
        ((3 : ℚ) : WithBot ℚ), ((9 : ℚ) : WithBot ℚ)] 3).Nodup) := by
  obtain ⟨h1, h2, _⟩ := topk_correct [((5 : ℚ) : WithBot ℚ), ((7 : ℚ) : WithBot ℚ),
    ((3 : ℚ) : WithBot ℚ), ((9 : ℚ) : WithBot ℚ)] (by decide)
  exact ⟨h1, h2⟩

theorem maskRow_length (padToken : Int) (row : List ℚ) :
    (maskRow padToken row).length = row.length := by
  unfold maskRow
  rw [List.length_set, List.length_map]

theorem maskRow_getElem?_self (padToken : Int) (row : List ℚ)
    (h : padToken.toNat < row.length) :
    (maskRow padToken row)[padToken.toNat]? = some ⊥ := by
  unfold maskRow
  exact List.getElem?_set_self (by rw [List.length_map]; exact h)

theorem maskRow_getElem?_ne (padToken : Int) (row : List ℚ) (i : Nat)
    (hne : i ≠ padToken.toNat) (hi : i < row.length) :
    (maskRow padToken row)[i]? = some ((row.get ⟨i, hi⟩ : ℚ) : WithBot ℚ) := by
  unfold maskRow
  rw [List.getElem?_set_ne (fun h => hne h.symm), List.getElem?_map,
    List.getElem?_eq_getElem hi]
  rfl

/-- Claim C3: after the pad-token column of the logits is set to `-∞`, the
pad token never appears among the 3 predicted class indices of a row,
provided the vocabulary (the number of columns) has more than 3 entries. -/
theorem pad_excluded (row : List ℚ) (padToken : Int)
    (hn : 3 < row.length) (hp0 : 0 ≤ padToken)
    (hp : padToken.toNat < row.length) :
    padToken.toNat ∉ topkIdx (maskRow padToken row) 3 := by
  intro hmem
  set m := maskRow padToken row with hm
  have hmlen : m.length = row.length := maskRow_length padToken row
  have hSlen : (sortedPairs m).length = row.length := by
    rw [sortedPairs_length, hmlen]
  obtain ⟨t, ht, hsel⟩ := List.mem_iff_getElem.mp hmem
  have ht3 : t < 3 := by
    have := topkIdx_length m 3
    omega
  have htS : t < (sortedPairs m).length := by omega
  have htfst : (sortedPairs m)[t].1 = padToken.toNat := by
    rw [← topkIdx_getElem m 3 t ht htS, hsel]
  have htval : m[(sortedPairs m)[t].1]? = some ((sortedPairs m)[t].2) :=
    sortedPairs_getElem_val m t htS
  rw [htfst, maskRow_getElem?_self padToken row hp] at htval
  have htbot : (sortedPairs m)[t].2 = ⊥ := by
    exact (Option.some.injEq _ _ ▸ htval).symm ▸ rfl
  have hu : t + 1 < (sortedPairs m).length := by omega
  have hrel : rankLt (sortedPairs m)[t] (sortedPairs m)[t + 1] :=
    sortedPairs_rel m (by omega) hu
  have hubot : (sortedPairs m)[t + 1].2 = ⊥ := by
    rcases hrel with h | ⟨h, _⟩
    · rw [htbot] at h
      exact absurd h (by simp)
    · rw [htbot] at h
      exact h.symm
  have huval : m[(sortedPairs m)[t + 1].1]? = some ((sortedPairs m)[t + 1].2) :=
    sortedPairs_getElem_val m (t + 1) hu
  have hult : (sortedPairs m)[t + 1].1 < row.length := by
    have := List.getElem?_eq_some_iff.mp (huval)
    obtain ⟨hlt, _⟩ := this
    omega
  have hufst : (sortedPairs m)[t + 1].1 = padToken.toNat := by
    by_contra hne
    rw [maskRow_getElem?_ne padToken row _ hne hult, hubot] at huval
    have := Option.some.inj huval
    exact WithBot.coe_ne_bot this
  have hnodup := sortedPairs_fst_nodup m
  have htm : t < ((sortedPairs m).map Prod.fst).length := by
    simpa using htS
  have hum : t + 1 < ((sortedPairs m).map Prod.fst).length := by
    simpa using hu
  have heq : ((sortedPairs m).map Prod.fst)[t] =
      ((sortedPairs m).map Prod.fst)[t + 1] := by
    rw [List.getElem_map, List.getElem_map, htfst, hufst]
  have := (hnodup.getElem_inj_iff).mp heq
  omega

theorem pad_excluded_witness :
    (0 : Int).toNat ∉ topkIdx (maskRow 0 [(0 : ℚ), 1, 2, 3, 4]) 3 :=
  pad_excluded [(0 : ℚ), 1, 2, 3, 4] 0 (by decide) (by decide) (by decide)

/-! ### The full pipeline -/

theorem decodeTop3_eq (indexToChar : List String) (row : List (WithBot ℚ))
    (hlen : row.length = indexToChar.length) (h3 : 3 ≤ row.length) :
    decodeTop3 indexToChar row =
      some (String.join ((topkIdx row 3).map
        (fun j => indexToChar.getD j ""))) := by
  unfold decodeTop3
  rw [mapOrPanic_eq_map (fun j => indexToChar[j]?)
    (fun j => indexToChar.getD j "") (topkIdx row 3) ?_]
  · rfl
  · intro j hj
    have hjlt : j < indexToChar.length := hlen ▸ topkIdx_lt row 3 j hj
    show indexToChar[j]? = some (indexToChar.getD j "")
    rw [List.getElem?_eq_getElem hjlt, List.getD_eq_getElem?_getD,
      List.getElem?_eq_getElem hjlt]
    rfl

theorem run_prediction_eq (forward : List (List Int) → List (List ℚ))
    (inputs : List String) (vocab : Vocab) (indexToChar : List String)
    (padToken : Int)
    (hrows : (forward (embed_strings inputs vocab padToken)).length =
      inputs.length)
    (hcols : ∀ row ∈ forward (embed_strings inputs vocab padToken),
      row.length = indexToChar.length)
    (hvocab : 3 < indexToChar.length) :
    run_prediction forward inputs vocab indexToChar padToken =
      some ((List.range inputs.length).map (fun b =>
        String.join ((topkIdx (maskRow padToken
            ((forward (embed_strings inputs vocab padToken)).getD b [])) 3).map
          (fun j => indexToChar.getD j "")))) := by
  show mapOrPanic (fun b =>
      (((forward (embed_strings inputs vocab padToken)).map
        (maskRow padToken))[b]?).bind (decodeTop3 indexToChar))
      (List.range inputs.length) = _
  refine mapOrPanic_eq_map _ _ _ ?_
  intro b hb
  have hblt : b < inputs.length := List.mem_range.mp hb
  have hblog : b < (forward (embed_strings inputs vocab padToken)).length := by
    rw [hrows]; exact hblt
  have hget : (forward (embed_strings inputs vocab padToken))[b]? =
      some ((forward (embed_strings inputs vocab padToken)).get ⟨b, hblog⟩) :=
    List.getElem?_eq_getElem hblog
  have hgetD : (forward (embed_strings inputs vocab padToken)).getD b [] =
      (forward (embed_strings inputs vocab padToken)).get ⟨b, hblog⟩ :=
    getD_of_getElem? hget
  rw [List.getElem?_map, hget, Option.map_some', Option.some_bind, hgetD]
  apply decodeTop3_eq
  · rw [maskRow_length, List.get_eq_getElem]
    exact hcols _ (List.getElem_mem hblog)
  · rw [maskRow_length, List.get_eq_getElem, hcols _ (List.getElem_mem hblog)]
    omega

/-- Claim C1 is false as stated: in this run the test input file contains 2
lines, but one fails to read and is silently dropped, so only 1 output line
is written. -/
theorem pipeline_counterexample :
    mainModel (.ok [(" ", 0), ("a", 1), ("b", 2), ("c", 3), ("d", 4)]) (.ok ())
      (.ok [.ok "ab", .error "invalid utf8"])
      (fun batch => batch.map (fun _ => ([0, 1, 2, 3, 4] : List ℚ))) =
      .ok ["dcb"] ∧
    ([.ok "ab", .error "invalid utf8"] : List (Except String String)).length = 2 ∧
    (["dcb"] : List String).length ≠ 2 := by
  refine ⟨rfl, rfl, by decide⟩

/-- Claim C1 (amended): for every run in which the test input file opens and
all of its `n` lines read successfully (and the model returns one logits row
per line, with one column per `index_to_char` entry, of which there are more
than 3), the program writes exactly `n` lines, and the `i`-th output line is
the concatenation of the 3 predicted next characters for the `i`-th input
line, in input order. -/
theorem pipeline_output_lines (vocabMap : Vocab) (indexToChar : List String)
    (padToken : Int) (lines : List String)
    (forward : List (List Int) → List (List ℚ))
    (htbl : buildIndexToChar vocabMap = some indexToChar)
    (hpad : vocabGet vocabMap " " = some padToken)
    (hrows : (forward (embed_strings lines vocabMap padToken)).length =
      lines.length)
    (hcols : ∀ row ∈ forward (embed_strings lines vocabMap padToken),
      row.length = indexToChar.length)
    (hvocab : 3 < indexToChar.length) :
    ∃ preds,
      mainModel (.ok vocabMap) (.ok ()) (.ok (lines.map Except.ok)) forward =
        .ok preds ∧
      preds.length = lines.length ∧
      ∀ (i : Nat) (row : List ℚ),
        (forward (embed_strings lines vocabMap padToken))[i]? = some row →
        preds[i]? = some (String.join ((topkIdx (maskRow padToken row) 3).map
          (fun j => indexToChar.getD j ""))) := by
  have hrun := run_prediction_eq forward lines vocabMap indexToChar padToken
    hrows hcols hvocab
  refine ⟨(List.range lines.length).map (fun b =>
    String.join ((topkIdx (maskRow padToken
        ((forward (embed_strings lines vocabMap padToken)).getD b [])) 3).map
      (fun j => indexToChar.getD j ""))), ?_, by simp, ?_⟩
  · simp only [mainModel, load_vocab, htbl, getPadToken, hpad, load_test_input,
      filterMap_toOption_map_ok, hrun, write_predictions_eq]
  · intro i row hirow
    obtain ⟨hilt, hival⟩ := List.getElem?_eq_some_iff.mp hirow
    have hin : i < lines.length := by rw [← hrows]; exact hilt
    rw [List.getElem?_map, List.getElem?_range hin, Option.map_some',
      getD_of_getElem? hirow]

theorem pipeline_output_lines_witness :
    ∃ preds,
      mainModel (.ok [(" ", 0), ("a", 1), ("b", 2), ("c", 3), ("d", 4)]) (.ok ())
        (.ok (["ab"].map Except.ok))
        (fun batch => batch.map (fun _ => ([0, 1, 2, 3, 4] : List ℚ))) =
        .ok preds ∧
      preds.length = 1 := by
  obtain ⟨preds, h1, h2, _⟩ :=
    pipeline_output_lines [(" ", 0), ("a", 1), ("b", 2), ("c", 3), ("d", 4)]
      [" ", "a", "b", "c", "d"] 0 ["ab"]
      (fun batch => batch.map (fun _ => ([0, 1, 2, 3, 4] : List ℚ)))
      (by decide) (by decide)
      (by simp [embed_strings])
      (by
        intro row hrow
        simp only [List.mem_map] at hrow
        obtain ⟨a, _, rfl⟩ := hrow
        rfl)
      (by decide)
  exact ⟨preds, h1, h2⟩

end Predict
